import Mathlib

/-!
Verification of the Creagy Project Tracker analytics derivation engine.

The repository's frontend (React, under `frontend/src`) is present in source
form; the Flask/SQLAlchemy backend that hosts the analytics derivation engine
(Calendar Month Registry, Manday Distributor, Timeline Builder, Summary
Aggregator, Analytics Facade) is not part of the available sources, so those
components are modelled from the specification (each such definition's doc
comment says so).  The task-creation form (`TaskForm.jsx`) and page wiring
(`ProjectDetailPage.jsx`) are embedded from the actual JavaScript sources.

Numbers: manday and budget are "non-negative real numbers / decimals" carried
exactly ("the distributor returns exact rational/floating shares"), embedded
as `ℚ`.  Calendar dates are triples (year, month, day) of integers ordered
lexicographically.
-/

namespace Creagy

/-- Calendar date as entered by the manager (`startDate`/`endDate` of a
project): year, month, day. -/
structure Date where
  year : Int
  month : Int
  day : Int
deriving DecidableEq, Repr

/-- Strict lexicographic order on dates. -/
def dateLt (a b : Date) : Prop :=
  a.year < b.year ∨ (a.year = b.year ∧
    (a.month < b.month ∨ (a.month = b.month ∧ a.day < b.day)))

/-- Non-strict lexicographic order on dates. -/
def dateLE (a b : Date) : Prop :=
  a.year < b.year ∨ (a.year = b.year ∧
    (a.month < b.month ∨ (a.month = b.month ∧ a.day ≤ b.day)))

instance : DecidableRel dateLt := fun a b =>
  inferInstanceAs (Decidable (_ ∨ _))

instance : DecidableRel dateLE := fun a b =>
  inferInstanceAs (Decidable (_ ∨ _))

/-- A calendar date with a month in 1..12 and a day in 1..31. -/
def validDate (d : Date) : Prop :=
  1 ≤ d.month ∧ d.month ≤ 12 ∧ 1 ≤ d.day ∧ d.day ≤ 31

theorem not_dateLt_iff_dateLE (a b : Date) : ¬ dateLt a b ↔ dateLE b a := by
  unfold dateLt dateLE
  omega

/-- Input record `Month{id, label, sortKey}`: canonical discrete time axis
(Calendar Month Registry reference data). -/
structure Month where
  id : Nat
  label : String
  sortKey : Int
deriving DecidableEq, Repr

/-- Month comparison used for "earliest"/"latest": by `sortKey`; two distinct
months sharing a `sortKey` are ordered by lower `id` first (the defined
tie-break of the spec).  Non-strict version. -/
def monthLE (a b : Month) : Prop :=
  a.sortKey < b.sortKey ∨ (a.sortKey = b.sortKey ∧ a.id ≤ b.id)

/-- Strict version of `monthLE`. -/
def monthLt (a b : Month) : Prop :=
  a.sortKey < b.sortKey ∨ (a.sortKey = b.sortKey ∧ a.id < b.id)

instance : DecidableRel monthLE := fun a b =>
  inferInstanceAs (Decidable (_ ∨ _))

instance : DecidableRel monthLt := fun a b =>
  inferInstanceAs (Decidable (_ ∨ _))

instance : IsTotal Month monthLE :=
  ⟨fun a b => by unfold monthLE; omega⟩

instance : IsTrans Month monthLE :=
  ⟨fun a b c hab hbc => by unfold monthLE at *; omega⟩

theorem not_monthLt_iff_monthLE (a b : Month) : ¬ monthLt a b ↔ monthLE b a := by
  unfold monthLt monthLE
  omega

/-- Input record `Task{id, projectId, name, assigneeId, manday, budget,
status}`.  `assigneeId` is optional (the form submits `null` when blank);
`status` is carried as its wire string. -/
structure Task where
  id : Nat
  projectId : Nat
  name : String
  assigneeId : Option Nat
  manday : ℚ
  budget : ℚ
  status : String
deriving DecidableEq, Repr

/-- Input record `Project{id, name, clientId, projectManagerId, teamId,
budget, startDate, endDate}`. -/
structure Project where
  id : Nat
  name : String
  clientId : Nat
  projectManagerId : Nat
  teamId : Nat
  budget : ℚ
  startDate : Date
  endDate : Date
deriving DecidableEq, Repr

/-- Input record `TaskActivityAssignment{id, taskId, monthId,
activityTypeId}`. -/
structure Assignment where
  id : Nat
  taskId : Nat
  monthId : Nat
  activityTypeId : Nat
deriving DecidableEq, Repr

/-- Modelled from the spec: the set of distinct Month ids assigned to a task,
derived from its TaskActivityAssignment records, deduplicated by month
(multiple activity types in the same month count as one month). -/
def distinctMonthIds (taskId : Nat) (asg : List Assignment) : List Nat :=
  ((asg.filter (fun a => a.taskId == taskId)).map Assignment.monthId).dedup

/-- Modelled from the spec: the Manday Distributor.  Given a task's `manday`
and its set of distinct assigned Month ids, the even split
`share = manday / count(distinctMonths)` for every assigned month; zero
assigned months yield the empty mapping. -/
def mandayDistributor (manday : ℚ) (monthIds : List Nat) : List (Nat × ℚ) :=
  if monthIds.isEmpty then []
  else monthIds.map (fun i => (i, manday / (monthIds.length : ℚ)))

/-- Sum of the shares a distribution assigns to a given month id (a
well-formed distribution holds each id at most once, so this is the plain
lookup). -/
def distLookup (d : List (Nat × ℚ)) (monthId : Nat) : ℚ :=
  ((d.filter (fun x => x.1 == monthId)).map Prod.snd).sum

theorem sum_map_const {α : Type} (l : List α) (c : ℚ) :
    (l.map (fun _ => c)).sum = (l.length : ℚ) * c := by
  induction l with
  | nil => simp
  | cons a t ih => simp [ih]; ring

/-- C1 (Manday Distributor conservation): for manday `m ≥ 0` and a non-empty
list of `n` distinct assigned month ids, every returned share equals `m/n`,
the shares sum to exactly `m`, and when `m = 0` every share is `0`. -/
theorem manday_distributor_conserving (m : ℚ) (ids : List Nat)
    (hne : ids ≠ []) (hpos : 0 ≤ m) (hnd : ids.Nodup) :
    (∀ p ∈ mandayDistributor m ids, p.2 = m / (ids.length : ℚ)) ∧
    ((mandayDistributor m ids).map Prod.snd).sum = m ∧
    (m = 0 → ∀ p ∈ mandayDistributor m ids, p.2 = 0) := by
  have hlen : ids.length ≠ 0 := fun h => hne (List.length_eq_zero.mp h)
  have hcast : (ids.length : ℚ) ≠ 0 := Nat.cast_ne_zero.mpr hlen
  have hne' : ¬ ids.isEmpty := by
    cases ids with
    | nil => exact absurd rfl hne
    | cons a t => simp [List.isEmpty]
  constructor
  · intro p hp
    unfold mandayDistributor at hp
    rw [if_neg hne'] at hp
    obtain ⟨i, _, rfl⟩ := List.mem_map.mp hp
    rfl
  · constructor
    · unfold mandayDistributor
      rw [if_neg hne']
      rw [List.map_map]
      have : (Prod.snd ∘ fun i : Nat => (i, m / (ids.length : ℚ))) =
          (fun _ : Nat => m / (ids.length : ℚ)) := rfl
      rw [this, sum_map_const, mul_div_cancel₀ _ hcast]
    · intro hm p hp
      unfold mandayDistributor at hp
      rw [if_neg hne'] at hp
      obtain ⟨i, _, rfl⟩ := List.mem_map.mp hp
      simp [hm]

/-- Witness for C1: manday 10 split over three distinct months gives shares
10/3 each, summing to 10. -/
theorem manday_distributor_conserving_witness :
    (∀ p ∈ mandayDistributor 10 [1, 2, 3], p.2 = 10 / 3) ∧
    ((mandayDistributor 10 [1, 2, 3]).map Prod.snd).sum = 10 ∧
    ((10 : ℚ) = 0 → ∀ p ∈ mandayDistributor 10 [1, 2, 3], p.2 = 0) := by
  have h := manday_distributor_conserving 10 [1, 2, 3]
    (by decide) (by norm_num) (by decide)
  simpa using h

/-- Keep the earlier of two months under the sortKey-then-id order
(`a` is kept on a tie, which for distinct ids cannot happen). -/
def pickEarlier (a b : Month) : Month :=
  if monthLt b a then b else a

/-- Keep the later of two months under the sortKey-then-id order. -/
def pickLater (a b : Month) : Month :=
  if monthLt a b then b else a

/-- Modelled from the spec: the earliest of a non-empty set of assigned
months, by `sortKey` ordering with the lower-`id` tie-break — not insertion
order. -/
def earliestMonth (m : Month) (ms : List Month) : Month :=
  ms.foldl pickEarlier m

/-- Modelled from the spec: the latest of a non-empty set of assigned months,
by `sortKey` ordering with the lower-`id` tie-break. -/
def latestMonth (m : Month) (ms : List Month) : Month :=
  ms.foldl pickLater m

theorem pickEarlier_le_left (a b : Month) : monthLE (pickEarlier a b) a := by
  unfold pickEarlier
  split
  · rename_i h; unfold monthLt at h; unfold monthLE; omega
  · unfold monthLE; omega

theorem pickEarlier_le_right (a b : Month) : monthLE (pickEarlier a b) b := by
  unfold pickEarlier
  split
  · unfold monthLE; omega
  · rename_i h; rw [not_monthLt_iff_monthLE] at h; exact h

theorem pickEarlier_mem (a b : Month) : pickEarlier a b = a ∨ pickEarlier a b = b := by
  unfold pickEarlier
  split
  · exact Or.inr rfl
  · exact Or.inl rfl

theorem pickLater_ge_left (a b : Month) : monthLE a (pickLater a b) := by
  unfold pickLater
  split
  · rename_i h; unfold monthLt at h; unfold monthLE; omega
  · unfold monthLE; omega

theorem pickLater_ge_right (a b : Month) : monthLE b (pickLater a b) := by
  unfold pickLater
  split
  · unfold monthLE; omega
  · rename_i h; rw [not_monthLt_iff_monthLE] at h; exact h

theorem pickLater_mem (a b : Month) : pickLater a b = a ∨ pickLater a b = b := by
  unfold pickLater
  split
  · exact Or.inr rfl
  · exact Or.inl rfl

theorem earliestMonth_mem (m : Month) (ms : List Month) :
    earliestMonth m ms ∈ m :: ms := by
  induction ms generalizing m with
  | nil => simp [earliestMonth]
  | cons b t ih =>
    unfold earliestMonth at *
    simp only [List.foldl_cons]
    rcases List.mem_cons.mp (ih (pickEarlier m b)) with h | h
    · rw [h]
      rcases pickEarlier_mem m b with h2 | h2 <;> rw [h2] <;> simp
    · exact List.mem_cons_of_mem _ (List.mem_cons_of_mem _ h)

theorem earliestMonth_le (m : Month) (ms : List Month) :
    ∀ x ∈ m :: ms, monthLE (earliestMonth m ms) x := by
  induction ms generalizing m with
  | nil =>
    intro x hx
    simp at hx
    subst hx
    simp [earliestMonth, monthLE]
  | cons b t ih =>
    intro x hx
    unfold earliestMonth at *
    simp only [List.foldl_cons]
    have hle : ∀ y ∈ pickEarlier m b :: t, monthLE (List.foldl pickEarlier (pickEarlier m b) t) y :=
      ih (pickEarlier m b)
    have hfold_le_pick : monthLE (List.foldl pickEarlier (pickEarlier m b) t) (pickEarlier m b) :=
      hle _ (List.mem_cons_self _ _)
    rcases List.mem_cons.mp hx with hxm | hx2
    · rw [hxm]
      exact Trans.trans hfold_le_pick (pickEarlier_le_left m b)
    · rcases List.mem_cons.mp hx2 with hxb | hx3
      · rw [hxb]
        exact Trans.trans hfold_le_pick (pickEarlier_le_right m b)
      · exact hle _ (List.mem_cons_of_mem _ hx3)

theorem latestMonth_mem (m : Month) (ms : List Month) :
    latestMonth m ms ∈ m :: ms := by
  induction ms generalizing m with
  | nil => simp [latestMonth]
  | cons b t ih =>
    unfold latestMonth at *
    simp only [List.foldl_cons]
    rcases List.mem_cons.mp (ih (pickLater m b)) with h | h
    · rw [h]
      rcases pickLater_mem m b with h2 | h2 <;> rw [h2] <;> simp
    · exact List.mem_cons_of_mem _ (List.mem_cons_of_mem _ h)

theorem latestMonth_ge (m : Month) (ms : List Month) :
    ∀ x ∈ m :: ms, monthLE x (latestMonth m ms) := by
  induction ms generalizing m with
  | nil =>
    intro x hx
    simp at hx
    subst hx
    simp [latestMonth, monthLE]
  | cons b t ih =>
    intro x hx
    unfold latestMonth at *
    simp only [List.foldl_cons]
    have hge : ∀ y ∈ pickLater m b :: t, monthLE y (List.foldl pickLater (pickLater m b) t) :=
      ih (pickLater m b)
    have hpick_le_fold : monthLE (pickLater m b) (List.foldl pickLater (pickLater m b) t) :=
      hge _ (List.mem_cons_self _ _)
    rcases List.mem_cons.mp hx with hxm | hx2
    · rw [hxm]
      exact Trans.trans (pickLater_ge_left m b) hpick_le_fold
    · rcases List.mem_cons.mp hx2 with hxb | hx3
      · rw [hxb]
        exact Trans.trans (pickLater_ge_right m b) hpick_le_fold
      · exact hge _ (List.mem_cons_of_mem _ hx3)

/-- Output payload kind of a Gantt entry: `"project" | "task"`. -/
inductive GanttKind where
  | project
  | task
deriving DecidableEq, Repr

/-- Output payload `{id, name, start (date), end (date), kind}` of the
Timeline Builder (the source's field `end` is spelled `endDate` here because
`end` is a reserved word in Lean). -/
structure GanttEntry where
  id : Nat
  name : String
  start : Date
  endDate : Date
  kind : GanttKind
deriving DecidableEq, Repr

/-- A task Gantt entry together with its ordering key: the earliest assigned
month's `sortKey` and `id`, and the task's id (the stable-order key of the
spec: by earliest assigned month, tie-broken by task id). -/
structure KeyedEntry where
  earliestSortKey : Int
  earliestMonthId : Nat
  taskId : Nat
  entry : GanttEntry
deriving DecidableEq, Repr

/-- Ordering of task entries: by earliest assigned month (sortKey, then the
month-id tie-break), tie-broken by task id. -/
def keyedLE (a b : KeyedEntry) : Prop :=
  a.earliestSortKey < b.earliestSortKey ∨
    (a.earliestSortKey = b.earliestSortKey ∧
      (a.earliestMonthId < b.earliestMonthId ∨
        (a.earliestMonthId = b.earliestMonthId ∧ a.taskId ≤ b.taskId)))

instance : DecidableRel keyedLE := fun a b =>
  inferInstanceAs (Decidable (_ ∨ _))

instance : IsTotal KeyedEntry keyedLE :=
  ⟨fun a b => by unfold keyedLE; omega⟩

instance : IsTrans KeyedEntry keyedLE :=
  ⟨fun a b c hab hbc => by unfold keyedLE at *; omega⟩

/-- Modelled from the spec: the keyed Gantt entry of one task, from its list
of assigned months.  A task with zero assigned months is excluded (`none`);
otherwise the entry spans the calendar-day start (`startOf`) of the earliest
assigned month to the calendar-day end (`endOf`) of the latest assigned
month.  The Month-to-calendar-day mapping is a parameter: the spec leaves the
exact boundary-day arithmetic open (§9). -/
def taskKeyedEntry (startOf endOf : Month → Date) :
    Task × List Month → Option KeyedEntry
  | (_, []) => none
  | (t, m :: ms) =>
    let e := earliestMonth m ms
    let l := latestMonth m ms
    some ⟨e.sortKey, e.id, t.id,
      ⟨t.id, t.name, startOf e, endOf l, GanttKind.task⟩⟩

/-- Modelled from the spec: the task entries of the Gantt payload, keyed and
returned in the stable order (earliest assigned month, tie-broken by task
id). -/
def timelineTaskEntriesKeyed (startOf endOf : Month → Date)
    (resolved : List (Task × List Month)) : List KeyedEntry :=
  List.insertionSort keyedLE (resolved.filterMap (taskKeyedEntry startOf endOf))

/-- Modelled from the spec: the project's own Gantt entry spanning
`[startDate, endDate]`. -/
def projectEntry (p : Project) : GanttEntry :=
  ⟨p.id, p.name, p.startDate, p.endDate, GanttKind.project⟩

/-- Modelled from the spec: the Timeline Builder — one Gantt entry for the
project spanning `[startDate, endDate]`, plus one Gantt entry per task with a
non-empty set of assigned months, in stable order. -/
def buildTimeline (startOf endOf : Month → Date) (p : Project)
    (resolved : List (Task × List Month)) : List GanttEntry :=
  projectEntry p :: (timelineTaskEntriesKeyed startOf endOf resolved).map KeyedEntry.entry

/-- C2 (Timeline Builder per-task range): for every task with a non-empty
list of assigned months, the timeline holds a keyed entry for the task whose
start is the calendar-day start of the earliest assigned month and whose end
is the calendar-day end of the latest assigned month, where the chosen
earliest (resp. latest) month is a member of the assigned months and is
`monthLE`-minimal (resp. maximal) — i.e. determined by `sortKey` with the
lower-`id` tie-break, not by insertion order — and the entry appears in
`buildTimeline`'s output. -/
theorem timeline_per_task_range (startOf endOf : Month → Date) (p : Project)
    (resolved : List (Task × List Month)) (t : Task) (m : Month)
    (ms : List Month) (hmem : (t, m :: ms) ∈ resolved) :
    ∃ ke ∈ timelineTaskEntriesKeyed startOf endOf resolved,
      ke.entry.id = t.id ∧ ke.entry.kind = GanttKind.task ∧
      ke.entry.start = startOf (earliestMonth m ms) ∧
      ke.entry.endDate = endOf (latestMonth m ms) ∧
      earliestMonth m ms ∈ m :: ms ∧
      (∀ x ∈ m :: ms, monthLE (earliestMonth m ms) x) ∧
      latestMonth m ms ∈ m :: ms ∧
      (∀ x ∈ m :: ms, monthLE x (latestMonth m ms)) ∧
      ke.entry ∈ buildTimeline startOf endOf p resolved := by
  have hf : taskKeyedEntry startOf endOf (t, m :: ms) =
      some ⟨(earliestMonth m ms).sortKey, (earliestMonth m ms).id, t.id,
        ⟨t.id, t.name, startOf (earliestMonth m ms),
          endOf (latestMonth m ms), GanttKind.task⟩⟩ := rfl
  have hmem2 : (⟨(earliestMonth m ms).sortKey, (earliestMonth m ms).id, t.id,
      ⟨t.id, t.name, startOf (earliestMonth m ms),
        endOf (latestMonth m ms), GanttKind.task⟩⟩ : KeyedEntry) ∈
      resolved.filterMap (taskKeyedEntry startOf endOf) :=
    List.mem_filterMap.mpr ⟨(t, m :: ms), hmem, hf⟩
  have hmem3 : (⟨(earliestMonth m ms).sortKey, (earliestMonth m ms).id, t.id,
      ⟨t.id, t.name, startOf (earliestMonth m ms),
        endOf (latestMonth m ms), GanttKind.task⟩⟩ : KeyedEntry) ∈
      timelineTaskEntriesKeyed startOf endOf resolved := by
    unfold timelineTaskEntriesKeyed
    exact (List.perm_insertionSort keyedLE _).mem_iff.mpr hmem2
  refine ⟨_, hmem3, rfl, rfl, rfl, rfl, earliestMonth_mem m ms,
    earliestMonth_le m ms, latestMonth_mem m ms, latestMonth_ge m ms, ?_⟩
  unfold buildTimeline
  exact List.mem_cons_of_mem _ (List.mem_map_of_mem KeyedEntry.entry hmem3)

/-- Witness for C2 at a concrete input: one task assigned to two months given
in reverse `sortKey` order — the entry spans from the month with the smaller
sortKey to the month with the larger one. -/
theorem timeline_per_task_range_witness :
    ∃ ke ∈ timelineTaskEntriesKeyed (fun mo => ⟨2024, mo.sortKey, 1⟩)
        (fun mo => ⟨2024, mo.sortKey, 31⟩)
        [(⟨7, 1, "T", none, 4, 0, "Planned"⟩,
          [⟨3, "2024-03", 3⟩, ⟨1, "2024-01", 1⟩])],
      ke.entry.id = 7 ∧ ke.entry.kind = GanttKind.task ∧
      ke.entry.start = (⟨2024, 1, 1⟩ : Date) ∧
      ke.entry.endDate = (⟨2024, 3, 31⟩ : Date) := by
  obtain ⟨ke, hmem, h1, h2, h3, h4, -⟩ :=
    timeline_per_task_range (fun mo => ⟨2024, mo.sortKey, 1⟩)
      (fun mo => ⟨2024, mo.sortKey, 31⟩)
      ⟨1, "P", 1, 1, 1, 0, ⟨2024, 1, 1⟩, ⟨2024, 12, 31⟩⟩
      [(⟨7, 1, "T", none, 4, 0, "Planned"⟩,
        [⟨3, "2024-03", 3⟩, ⟨1, "2024-01", 1⟩])]
      ⟨7, 1, "T", none, 4, 0, "Planned"⟩ ⟨3, "2024-03", 3⟩ [⟨1, "2024-01", 1⟩]
      (List.mem_singleton.mpr rfl)
  refine ⟨ke, hmem, h1, h2, ?_, ?_⟩
  · rw [h3]; rfl
  · rw [h4]; rfl

/-- C7 (Timeline determinism and stable ordering): `buildTimeline` is a pure
function — running it twice on identical input yields identical output — its
task entries are exactly the keyed entries in order, and the keyed entries
are sorted by `keyedLE`: by earliest assigned month (sortKey, month-id
tie-break), tie-broken by task id. -/
theorem timeline_deterministic_sorted (startOf endOf : Month → Date)
    (p : Project) (resolved : List (Task × List Month)) :
    buildTimeline startOf endOf p resolved =
      buildTimeline startOf endOf p resolved ∧
    buildTimeline startOf endOf p resolved =
      projectEntry p ::
        (timelineTaskEntriesKeyed startOf endOf resolved).map KeyedEntry.entry ∧
    List.Sorted keyedLE (timelineTaskEntriesKeyed startOf endOf resolved) := by
  refine ⟨rfl, rfl, ?_⟩
  unfold timelineTaskEntriesKeyed
  exact List.sorted_insertionSort keyedLE _

/-- Error taxonomy of the engine: `NotFound` (a referenced Month id does not
exist in the registry) and `InvalidRange` (project end precedes start). -/
inductive EngineError where
  | notFound (monthId : Nat)
  | invalidRange
deriving DecidableEq, Repr

/-- Modelled from the spec: project span expressed in whole months, computed
from `startDate`/`endDate`, counted inclusively (Scenario A: 2024-01-01 to
2024-06-30 is 6 months). -/
def durationMonths (s e : Date) : Int :=
  12 * (e.year - s.year) + (e.month - s.month) + 1

/-- Summary payload `{durationMonths, totalManday, totalBudget}`. -/
structure Summary where
  durationMonths : Int
  totalManday : ℚ
  totalBudget : ℚ
deriving DecidableEq, Repr

/-- Modelled from the spec: the Summary Aggregator.  `endDate` before
`startDate` signals `InvalidRange`; otherwise `durationMonths` is the
inclusive whole-month span, `totalManday` the sum of all task `manday`
values, and `totalBudget` the project `budget` plus the sum of all task
`budget` values. -/
def summaryAggregator (p : Project) (ts : List Task) : Except EngineError Summary :=
  if dateLt p.endDate p.startDate then Except.error EngineError.invalidRange
  else Except.ok
    { durationMonths := durationMonths p.startDate p.endDate
      totalManday := (ts.map Task.manday).sum
      totalBudget := p.budget + (ts.map Task.budget).sum }

/-- C3 (Summary Aggregator postconditions): when the project's dates are in
order, the aggregator returns the inclusive whole-month span of
`startDate..endDate`, the sum of all task `manday` values (independent of any
distribution), and `project.budget` plus the sum of all task `budget` values;
for an empty task list the totals are `0` and `project.budget`. -/
theorem summary_aggregator_postconditions (p : Project) (ts : List Task)
    (hrange : dateLE p.startDate p.endDate) :
    summaryAggregator p ts = Except.ok
      { durationMonths := durationMonths p.startDate p.endDate
        totalManday := (ts.map Task.manday).sum
        totalBudget := p.budget + (ts.map Task.budget).sum } ∧
    summaryAggregator p [] = Except.ok
      { durationMonths := durationMonths p.startDate p.endDate
        totalManday := 0
        totalBudget := p.budget } := by
  have hnot : ¬ dateLt p.endDate p.startDate :=
    (not_dateLt_iff_dateLE p.endDate p.startDate).mpr hrange
  constructor
  · unfold summaryAggregator
    rw [if_neg hnot]
  · unfold summaryAggregator
    rw [if_neg hnot]
    simp

/-- Witness for C3 (Scenario A dates plus one task): a project from
2024-01-01 to 2024-06-30 with one task of manday 10 and budget 100 yields
durationMonths 6, totalManday 10, totalBudget 1000 + 100. -/
theorem summary_aggregator_postconditions_witness :
    summaryAggregator
        ⟨1, "P", 1, 1, 1, 1000, ⟨2024, 1, 1⟩, ⟨2024, 6, 30⟩⟩
        [⟨7, 1, "T", none, 10, 100, "Planned"⟩] =
      Except.ok { durationMonths := 6, totalManday := 10, totalBudget := 1100 } ∧
    summaryAggregator
        ⟨1, "P", 1, 1, 1, 1000, ⟨2024, 1, 1⟩, ⟨2024, 6, 30⟩⟩ [] =
      Except.ok { durationMonths := 6, totalManday := 0, totalBudget := 1000 } := by
  have h := summary_aggregator_postconditions
    ⟨1, "P", 1, 1, 1, 1000, ⟨2024, 1, 1⟩, ⟨2024, 6, 30⟩⟩
    [⟨7, 1, "T", none, 10, 100, "Planned"⟩]
    (by unfold dateLE; simp)
  obtain ⟨h1, h2⟩ := h
  constructor
  · rw [h1]
    norm_num [durationMonths]
  · rw [h2]
    norm_num [durationMonths]

/-- Modelled from the spec: Calendar Month Registry lookup of a Month by id;
an unknown id signals `NotFound` to the caller (here: `none`). -/
def lookupMonth (registry : List Month) (monthId : Nat) : Option Month :=
  registry.find? (fun mo => mo.id == monthId)

/-- Modelled from the spec: resolve a list of Month ids against the registry,
aborting with `NotFound` on the first unknown id. -/
def resolveMonths (registry : List Month) : List Nat → Except EngineError (List Month)
  | [] => Except.ok []
  | i :: rest =>
    match lookupMonth registry i with
    | some mo => (resolveMonths registry rest).map (fun ms => mo :: ms)
    | none => Except.error (EngineError.notFound i)

/-- Modelled from the spec: pair every task with its resolved distinct
assigned Months, aborting with `NotFound` if any referenced Month id is
unknown. -/
def resolveTasks (registry : List Month) (asg : List Assignment) :
    List Task → Except EngineError (List (Task × List Month))
  | [] => Except.ok []
  | t :: rest => do
      let ms ← resolveMonths registry (distinctMonthIds t.id asg)
      let rs ← resolveTasks registry asg rest
      Except.ok ((t, ms) :: rs)

/-- Modelled from the spec: the facade's merge step — for each Month present
in any task's distribution, sum contributions across all tasks of the
project, producing the project-level monthly series ordered by `sortKey`. -/
def mergedMonthTotals (resolved : List (Task × List Month)) : List (Month × ℚ) :=
  let months := ((resolved.map Prod.snd).flatten).dedup
  (List.insertionSort monthLE months).map (fun mo =>
    (mo, (resolved.map (fun pr =>
      distLookup (mandayDistributor pr.1.manday (pr.2.map Month.id)) mo.id)).sum))

/-- Analytics payload: Gantt data, manday chart series
`{monthLabel, totalShare}`, summary, and `canManageTasks`. -/
structure AnalyticsPayload where
  gantt : List GanttEntry
  mandayChart : List (String × ℚ)
  summary : Summary
  canManageTasks : Bool
deriving DecidableEq, Repr

/-- Modelled from the spec: the Analytics Facade — resolve months, run the
Timeline Builder, the per-task Manday Distributor with the merge, and the
Summary Aggregator, and return the three payloads plus `canManageTasks`
(requesting employee's id compared with the project's `projectManagerId`);
any sub-component error aborts the whole call with that error. -/
def analyticsFacade (startOf endOf : Month → Date) (registry : List Month)
    (requestingEmployeeId : Nat) (p : Project) (ts : List Task)
    (asg : List Assignment) : Except EngineError AnalyticsPayload := do
  let resolved ← resolveTasks registry asg ts
  let summary ← summaryAggregator p ts
  Except.ok
    { gantt := buildTimeline startOf endOf p resolved
      mandayChart := (mergedMonthTotals resolved).map (fun x => (x.1.label, x.2))
      summary := summary
      canManageTasks := requestingEmployeeId == p.projectManagerId }

theorem mandayDistributor_map_fst (m : ℚ) (ids : List Nat) (hne : ids ≠ []) :
    (mandayDistributor m ids).map Prod.fst = ids := by
  have hne' : ¬ ids.isEmpty := by
    cases ids with
    | nil => exact absurd rfl hne
    | cons a t => simp [List.isEmpty]
  unfold mandayDistributor
  rw [if_neg hne', List.map_map]
  have hcomp : (Prod.fst ∘ fun i : Nat => (i, m / (ids.length : ℚ))) = id := rfl
  rw [hcomp, List.map_id]

/-- C4 (Facade monthly-series merge): the merged monthly series is sorted by
`sortKey` (first components in `monthLE` order), each entry's value is the
sum over all of the project's tasks of that task's distribution share for the
entry's month, a month appears in the series iff it is among some task's
resolved assigned months, and any such month is indeed present in that task's
distribution output. -/
theorem merged_monthly_series (resolved : List (Task × List Month)) :
    List.Pairwise (fun a b : Month × ℚ => monthLE a.1 b.1)
      (mergedMonthTotals resolved) ∧
    (∀ x ∈ mergedMonthTotals resolved,
      x.2 = (resolved.map (fun pr =>
        distLookup (mandayDistributor pr.1.manday (pr.2.map Month.id)) x.1.id)).sum) ∧
    (∀ mo : Month, (∃ v, (mo, v) ∈ mergedMonthTotals resolved) ↔
      ∃ pr ∈ resolved, mo ∈ pr.2) ∧
    (∀ pr ∈ resolved, ∀ mo ∈ pr.2,
      mo.id ∈ (mandayDistributor pr.1.manday (pr.2.map Month.id)).map Prod.fst) := by
  refine ⟨?_, ?_, ?_, ?_⟩
  · unfold mergedMonthTotals
    exact (List.sorted_insertionSort monthLE _).map _ (fun a b h => h)
  · intro x hx
    unfold mergedMonthTotals at hx
    obtain ⟨mo, _, rfl⟩ := List.mem_map.mp hx
    rfl
  · intro mo
    constructor
    · rintro ⟨v, hv⟩
      unfold mergedMonthTotals at hv
      obtain ⟨mo2, hmo2, heq⟩ := List.mem_map.mp hv
      have : mo2 = mo := congrArg Prod.fst heq
      subst this
      have hmem := (List.perm_insertionSort monthLE _).mem_iff.mp hmo2
      have hmem2 := List.mem_dedup.mp hmem
      obtain ⟨s, hs, hmos⟩ := List.mem_flatten.mp hmem2
      obtain ⟨pr, hpr, rfl⟩ := List.mem_map.mp hs
      exact ⟨pr, hpr, hmos⟩
    · rintro ⟨pr, hpr, hmo⟩
      refine ⟨(resolved.map (fun pr =>
        distLookup (mandayDistributor pr.1.manday (pr.2.map Month.id)) mo.id)).sum, ?_⟩
      unfold mergedMonthTotals
      refine List.mem_map.mpr ⟨mo, ?_, rfl⟩
      refine (List.perm_insertionSort monthLE _).mem_iff.mpr ?_
      refine List.mem_dedup.mpr ?_
      exact List.mem_flatten.mpr ⟨pr.2, List.mem_map.mpr ⟨pr, hpr, rfl⟩, hmo⟩
  · intro pr hpr mo hmo
    have hne : pr.2.map Month.id ≠ [] := by
      cases h : pr.2 with
      | nil => rw [h] at hmo; exact absurd hmo (List.not_mem_nil mo)
      | cons a t => simp [h]
    rw [mandayDistributor_map_fst _ _ hne]
    exact List.mem_map_of_mem Month.id hmo

/-- Witness for C4 (Scenario C): two tasks both assigned to the single month
"Feb" with mandays 5 and 7 — the merged series holds exactly one entry for
Feb with total 12. -/
theorem merged_monthly_series_witness :
    mergedMonthTotals
        [(⟨1, 1, "A", none, 5, 0, "Planned"⟩, [⟨2, "Feb", 2⟩]),
         (⟨2, 1, "B", none, 7, 0, "Planned"⟩, [⟨2, "Feb", 2⟩])] =
      [(⟨2, "Feb", 2⟩, 12)] ∧
    (∀ x ∈ mergedMonthTotals
        [(⟨1, 1, "A", none, 5, 0, "Planned"⟩, [⟨2, "Feb", 2⟩]),
         (⟨2, 1, "B", none, 7, 0, "Planned"⟩, [⟨2, "Feb", 2⟩])],
      x.2 = ([(⟨1, 1, "A", none, 5, 0, "Planned"⟩, [⟨2, "Feb", 2⟩]),
         (⟨2, 1, "B", none, 7, 0, "Planned"⟩, [⟨2, "Feb", 2⟩])].map
          (fun pr : Task × List Month =>
            distLookup (mandayDistributor pr.1.manday (pr.2.map Month.id)) x.1.id)).sum) := by
  constructor
  · simp only [mergedMonthTotals, List.map_cons, List.map_nil, List.flatten,
      List.append_nil, List.dedup_cons_of_mem, List.dedup_cons_of_not_mem,
      List.mem_singleton, List.insertionSort, List.orderedInsert, distLookup,
      mandayDistributor, List.filter, List.sum_cons, List.sum_nil]
    norm_num
  · exact (merged_monthly_series _).2.1

/-- C6 (Error handling and atomicity): when `endDate` precedes `startDate`
the Summary Aggregator signals `InvalidRange`; whenever it does succeed on
valid calendar dates, the returned duration is positive (never negative); a
`NotFound` from month resolution or an `InvalidRange` from the aggregator
aborts the whole facade call with exactly that error; and a successful facade
call implies every sub-component succeeded (no partial payload can accompany
an error, the facade returns either `ok` or `error`). -/
theorem facade_error_atomicity (startOf endOf : Month → Date)
    (registry : List Month) (reqId : Nat) (p : Project) (ts : List Task)
    (asg : List Assignment) :
    (dateLt p.endDate p.startDate →
      summaryAggregator p ts = Except.error EngineError.invalidRange) ∧
    (∀ s, summaryAggregator p ts = Except.ok s →
      validDate p.startDate → validDate p.endDate → 0 < s.durationMonths) ∧
    (∀ e, resolveTasks registry asg ts = Except.error e →
      analyticsFacade startOf endOf registry reqId p ts asg = Except.error e) ∧
    (∀ r e, resolveTasks registry asg ts = Except.ok r →
      summaryAggregator p ts = Except.error e →
      analyticsFacade startOf endOf registry reqId p ts asg = Except.error e) ∧
    (∀ pl, analyticsFacade startOf endOf registry reqId p ts asg = Except.ok pl →
      (∃ r, resolveTasks registry asg ts = Except.ok r) ∧
      summaryAggregator p ts = Except.ok pl.summary) := by
  refine ⟨?_, ?_, ?_, ?_, ?_⟩
  · intro hlt
    unfold summaryAggregator
    rw [if_pos hlt]
  · intro s hs hvs hve
    unfold summaryAggregator at hs
    by_cases hlt : dateLt p.endDate p.startDate
    · rw [if_pos hlt] at hs
      exact absurd hs (by simp)
    · rw [if_neg hlt] at hs
      have hmk := Except.ok.inj hs
      have hdur : s.durationMonths = durationMonths p.startDate p.endDate := by
        rw [← hmk]
      rw [hdur]
      have hle := (not_dateLt_iff_dateLE p.endDate p.startDate).mp hlt
      unfold dateLE at hle
      unfold durationMonths validDate at *
      omega
  · intro e he
    unfold analyticsFacade
    rw [he]
    rfl
  · intro r e hr hsum
    unfold analyticsFacade
    rw [hr, hsum]
    rfl
  · intro pl hpl
    unfold analyticsFacade at hpl
    cases hr : resolveTasks registry asg ts with
    | error e2 =>
      rw [hr] at hpl
      exact absurd hpl (by simp [Bind.bind, Except.bind])
    | ok r =>
      rw [hr] at hpl
      cases hs : summaryAggregator p ts with
      | error e3 =>
        rw [hs] at hpl
        exact absurd hpl (by simp [Bind.bind, Except.bind])
      | ok s =>
        rw [hs] at hpl
        refine ⟨⟨r, rfl⟩, ?_⟩
        have hrec := Except.ok.inj hpl
        rw [← hrec]

/-- Witness for C6: a project whose end (2024-01-01) precedes its start
(2024-06-30) makes both the Summary Aggregator and the whole facade call
return `InvalidRange`. -/
theorem facade_error_atomicity_witness :
    summaryAggregator
        ⟨1, "P", 1, 1, 1, 0, ⟨2024, 6, 30⟩, ⟨2024, 1, 1⟩⟩ [] =
      Except.error EngineError.invalidRange ∧
    analyticsFacade (fun mo => ⟨2024, mo.sortKey, 1⟩)
        (fun mo => ⟨2024, mo.sortKey, 31⟩) [] 5
        ⟨1, "P", 1, 1, 1, 0, ⟨2024, 6, 30⟩, ⟨2024, 1, 1⟩⟩ [] [] =
      Except.error EngineError.invalidRange := by
  have h := facade_error_atomicity (fun mo => ⟨2024, mo.sortKey, 1⟩)
    (fun mo => ⟨2024, mo.sortKey, 31⟩) [] 5
    ⟨1, "P", 1, 1, 1, 0, ⟨2024, 6, 30⟩, ⟨2024, 1, 1⟩⟩ [] []
  have hlt : dateLt
      (Project.endDate ⟨1, "P", 1, 1, 1, 0, ⟨2024, 6, 30⟩, ⟨2024, 1, 1⟩⟩)
      (Project.startDate ⟨1, "P", 1, 1, 1, 0, ⟨2024, 6, 30⟩, ⟨2024, 1, 1⟩⟩) := by
    unfold dateLt
    simp
  have h1 := h.1 hlt
  refine ⟨h1, ?_⟩
  have hres : resolveTasks [] [] ([] : List Task) = Except.ok [] := rfl
  exact h.2.2.2.1 [] EngineError.invalidRange hres h1

/-- The two mutually exclusive renderings of the task-management section of
`ProjectDetailPage.jsx`: the "Add Task" card with the `TaskForm`, or the
"Only ... can add tasks" note. -/
inductive TaskSection where
  | taskFormCard
  | managerOnlyNote
deriving DecidableEq, Repr

/-- From `ProjectDetailPage.jsx` (lines 109–124): the page renders the
`TaskForm` card iff `detail.canManageTasks` is truthy, else the
manager-only note. -/
def taskSection (detail : AnalyticsPayload) : TaskSection :=
  if detail.canManageTasks then TaskSection.taskFormCard
  else TaskSection.managerOnlyNote

/-- C8 (Permission flag): for every successful facade invocation the returned
`canManageTasks` is `true` iff the requesting employee's id equals the
project's `projectManagerId`, and the page offers task creation (renders the
`TaskForm` card) iff that flag is `true`. -/
theorem facade_can_manage_tasks (startOf endOf : Month → Date)
    (registry : List Month) (reqId : Nat) (p : Project) (ts : List Task)
    (asg : List Assignment) (pl : AnalyticsPayload)
    (hok : analyticsFacade startOf endOf registry reqId p ts asg = Except.ok pl) :
    (pl.canManageTasks = true ↔ reqId = p.projectManagerId) ∧
    (taskSection pl = TaskSection.taskFormCard ↔ pl.canManageTasks = true) := by
  have hflag : pl.canManageTasks = (reqId == p.projectManagerId) := by
    unfold analyticsFacade at hok
    cases hr : resolveTasks registry asg ts with
    | error e =>
      rw [hr] at hok
      exact absurd hok (by simp [Bind.bind, Except.bind])
    | ok r =>
      rw [hr] at hok
      cases hs : summaryAggregator p ts with
      | error e =>
        rw [hs] at hok
        exact absurd hok (by simp [Bind.bind, Except.bind])
      | ok s =>
        rw [hs] at hok
        have hrec := Except.ok.inj hok
        rw [← hrec]

  constructor
  · rw [hflag]
    exact beq_iff_eq
  · unfold taskSection
    constructor
    · intro h
      by_cases hc : pl.canManageTasks
      · exact hc
      · rw [if_neg hc] at h
        exact absurd h (by simp)
    · intro h
      rw [if_pos h]

/-- Witness for C8: requester 5 on a project managed by employee 5 — the
facade returns `canManageTasks = true` and the page renders the task form. -/
theorem facade_can_manage_tasks_witness :
    ∃ pl, analyticsFacade (fun mo => ⟨2024, mo.sortKey, 1⟩)
        (fun mo => ⟨2024, mo.sortKey, 31⟩) [] 5
        ⟨1, "P", 1, 5, 1, 0, ⟨2024, 1, 1⟩, ⟨2024, 6, 30⟩⟩ [] [] = Except.ok pl ∧
      pl.canManageTasks = true ∧ taskSection pl = TaskSection.taskFormCard := by
  have hok : analyticsFacade (fun mo => ⟨2024, mo.sortKey, 1⟩)
      (fun mo => ⟨2024, mo.sortKey, 31⟩) [] 5
      ⟨1, "P", 1, 5, 1, 0, ⟨2024, 1, 1⟩, ⟨2024, 6, 30⟩⟩ [] [] = Except.ok
      { gantt := buildTimeline (fun mo => ⟨2024, mo.sortKey, 1⟩)
          (fun mo => ⟨2024, mo.sortKey, 31⟩)
          ⟨1, "P", 1, 5, 1, 0, ⟨2024, 1, 1⟩, ⟨2024, 6, 30⟩⟩ []
        mandayChart := (mergedMonthTotals []).map (fun x => (x.1.label, x.2))
        summary :=
          { durationMonths := durationMonths ⟨2024, 1, 1⟩ ⟨2024, 6, 30⟩
            totalManday := (([] : List Task).map Task.manday).sum
            totalBudget := 0 + (([] : List Task).map Task.budget).sum }
        canManageTasks := (5 == 5) } := rfl
  have h := facade_can_manage_tasks (fun mo => ⟨2024, mo.sortKey, 1⟩)
    (fun mo => ⟨2024, mo.sortKey, 31⟩) [] 5
    ⟨1, "P", 1, 5, 1, 0, ⟨2024, 1, 1⟩, ⟨2024, 6, 30⟩⟩ [] [] _ hok
  exact ⟨_, hok, h.1.mpr rfl, h.2.mpr (h.1.mpr rfl)⟩

theorem keyed_entry_shape (startOf endOf : Month → Date)
    (resolved : List (Task × List Month)) :
    ∀ ke ∈ timelineTaskEntriesKeyed startOf endOf resolved,
      ke.entry.id = ke.taskId ∧ ke.entry.kind = GanttKind.task ∧
      ∃ pr ∈ resolved, pr.2 ≠ [] ∧ pr.1.id = ke.taskId := by
  intro ke hke
  unfold timelineTaskEntriesKeyed at hke
  have hke2 := (List.perm_insertionSort keyedLE _).mem_iff.mp hke
  obtain ⟨pr, hpr, hf⟩ := List.mem_filterMap.mp hke2
  obtain ⟨t, ms⟩ := pr
  cases ms with
  | nil => exact absurd hf (by simp [taskKeyedEntry])
  | cons m rest =>
    have : ke = ⟨(earliestMonth m rest).sortKey, (earliestMonth m rest).id, t.id,
        ⟨t.id, t.name, startOf (earliestMonth m rest),
          endOf (latestMonth m rest), GanttKind.task⟩⟩ :=
      (Option.some.inj hf).symm
    subst this
    exact ⟨rfl, rfl, ⟨(t, m :: rest), hpr, by simp, rfl⟩⟩

/-- C5 (Zero-month task policy): a task resolved to an empty list of assigned
months contributes no entry to the Gantt timeline (no keyed task entry and no
task-kind entry of the built timeline carries its id, given distinct task
ids) and its manday distribution is the empty mapping — yet when the project
dates are in order its `manday` and `budget` are still counted in the
Summary Aggregator's `totalManday` and `totalBudget`. -/
theorem zero_month_task_policy (startOf endOf : Month → Date) (p : Project)
    (resolved : List (Task × List Month)) (t : Task) (ts : List Task)
    (hmem : (t, ([] : List Month)) ∈ resolved)
    (hnd : (resolved.map (fun pr => pr.1.id)).Nodup)
    (hts : t ∈ ts) (hrange : dateLE p.startDate p.endDate) :
    (∀ ke ∈ timelineTaskEntriesKeyed startOf endOf resolved, ke.taskId ≠ t.id) ∧
    (∀ entry ∈ buildTimeline startOf endOf p resolved,
      entry.kind = GanttKind.task → entry.id ≠ t.id) ∧
    mandayDistributor t.manday [] = [] ∧
    (∃ s, summaryAggregator p ts = Except.ok s ∧
      s.totalManday = t.manday + ((ts.erase t).map Task.manday).sum ∧
      s.totalBudget = p.budget + (t.budget + ((ts.erase t).map Task.budget).sum)) := by
  have hkey : ∀ ke ∈ timelineTaskEntriesKeyed startOf endOf resolved,
      ke.taskId ≠ t.id := by
    intro ke hke heq
    obtain ⟨-, -, pr, hpr, hne, hid⟩ := keyed_entry_shape startOf endOf resolved ke hke
    have hinj := List.inj_on_of_nodup_map hnd
    have : pr = (t, ([] : List Month)) :=
      hinj hpr hmem (by rw [hid, heq])
    rw [this] at hne
    exact hne rfl
  refine ⟨hkey, ?_, rfl, ?_⟩
  · intro entry hentry hkind heq
    unfold buildTimeline at hentry
    rcases List.mem_cons.mp hentry with hproj | htask
    · rw [hproj] at hkind
      exact absurd hkind (by simp [projectEntry])
    · obtain ⟨ke, hke, hkeq⟩ := List.mem_map.mp htask
      obtain ⟨hid, -, -⟩ := keyed_entry_shape startOf endOf resolved ke hke
      exact hkey ke hke (by rw [← hid, hkeq, heq])
  · have hperm : ts.Perm (t :: ts.erase t) := List.perm_cons_erase hts
    have hsum : (ts.map Task.manday).sum =
        t.manday + ((ts.erase t).map Task.manday).sum := by
      have := (hperm.map Task.manday).sum_eq
      simpa using this
    have hbud : (ts.map Task.budget).sum =
        t.budget + ((ts.erase t).map Task.budget).sum := by
      have := (hperm.map Task.budget).sum_eq
      simpa using this
    have hnot : ¬ dateLt p.endDate p.startDate :=
      (not_dateLt_iff_dateLE p.endDate p.startDate).mpr hrange
    refine ⟨{ durationMonths := durationMonths p.startDate p.endDate
              totalManday := (ts.map Task.manday).sum
              totalBudget := p.budget + (ts.map Task.budget).sum }, ?_, ?_, ?_⟩
    · unfold summaryAggregator
      rw [if_neg hnot]
    · exact hsum
    · show p.budget + (ts.map Task.budget).sum = _
      rw [hbud]

/-- Witness for C5: a zero-month task alongside a one-month task — the
timeline carries no entry for the zero-month task, its distribution is
empty, and the summary still counts its manday 4 and budget 40. -/
theorem zero_month_task_policy_witness :
    (∀ ke ∈ timelineTaskEntriesKeyed (fun mo => ⟨2024, mo.sortKey, 1⟩)
        (fun mo => ⟨2024, mo.sortKey, 31⟩)
        [(⟨7, 1, "Z", none, 4, 40, "Planned"⟩, []),
         (⟨8, 1, "O", none, 6, 60, "Planned"⟩, [⟨1, "Jan", 1⟩])],
      ke.taskId ≠ 7) ∧
    mandayDistributor (4 : ℚ) [] = [] ∧
    (∃ s, summaryAggregator ⟨1, "P", 1, 1, 1, 100, ⟨2024, 1, 1⟩, ⟨2024, 6, 30⟩⟩
        [⟨7, 1, "Z", none, 4, 40, "Planned"⟩, ⟨8, 1, "O", none, 6, 60, "Planned"⟩] =
      Except.ok s ∧
      s.totalManday = 4 + ((([⟨7, 1, "Z", none, 4, 40, "Planned"⟩,
        ⟨8, 1, "O", none, 6, 60, "Planned"⟩] : List Task).erase
          ⟨7, 1, "Z", none, 4, 40, "Planned"⟩).map Task.manday).sum) := by
  have h := zero_month_task_policy (fun mo => ⟨2024, mo.sortKey, 1⟩)
    (fun mo => ⟨2024, mo.sortKey, 31⟩)
    ⟨1, "P", 1, 1, 1, 100, ⟨2024, 1, 1⟩, ⟨2024, 6, 30⟩⟩
    [(⟨7, 1, "Z", none, 4, 40, "Planned"⟩, []),
     (⟨8, 1, "O", none, 6, 60, "Planned"⟩, [⟨1, "Jan", 1⟩])]
    ⟨7, 1, "Z", none, 4, 40, "Planned"⟩
    [⟨7, 1, "Z", none, 4, 40, "Planned"⟩, ⟨8, 1, "O", none, 6, 60, "Planned"⟩]
    (by simp) (by simp) (by simp) (by unfold dateLE; simp)
  obtain ⟨h1, -, h3, s, hs, hman, -⟩ := h
  exact ⟨h1, h3, s, hs, hman⟩

/-- `TaskForm.jsx`: `const STATUS_OPTIONS = ["Planned", "In Progress",
"Completed"]` — the spec writes the middle value as the identifier
`InProgress`. -/
def STATUS_OPTIONS : List String := ["Planned", "In Progress", "Completed"]

/-- `TaskForm.jsx`: one month/activity row of the form's `rows` state; the
select values are strings, `""` when nothing is selected. -/
structure ActivityRow where
  monthId : String
  activityId : String
deriving DecidableEq, Repr

/-- `TaskForm.jsx`: the `form` state `{name, assigneeId, manday, budget,
status}` (all held as input strings). -/
structure TaskFormValues where
  name : String
  assigneeId : String
  manday : String
  budget : String
  status : String
deriving DecidableEq, Repr

/-- `TaskForm.jsx`: the initial `form` state — empty fields and
`status: STATUS_OPTIONS[0]`. -/
def initialFormValues : TaskFormValues :=
  { name := "", assigneeId := "", manday := "", budget := ""
    status := STATUS_OPTIONS.get ⟨0, by decide⟩ }

/-- `TaskForm.jsx` full component state: `form`, `rows` (initially one blank
row) and the error banner. -/
structure TaskFormState where
  values : TaskFormValues
  rows : List ActivityRow
  error : String
deriving DecidableEq, Repr

/-- `TaskForm.jsx`: the component's initial state. -/
def initialTaskFormState : TaskFormState :=
  { values := initialFormValues, rows := [⟨"", ""⟩], error := "" }

/-- `handleFieldChange`: `setForm(prev => ({...prev, [name]: value}))` for
the five named inputs. -/
def setField (f : TaskFormValues) (field value : String) : TaskFormValues :=
  if field = "name" then { f with name := value }
  else if field = "assigneeId" then { f with assigneeId := value }
  else if field = "manday" then { f with manday := value }
  else if field = "budget" then { f with budget := value }
  else if field = "status" then { f with status := value }
  else f

/-- `handleRowChange`: update key `key` of the row at `index`. -/
def setRowKey (r : ActivityRow) (key value : String) : ActivityRow :=
  if key = "monthId" then { r with monthId := value }
  else if key = "activityId" then { r with activityId := value }
  else r

/-- The state-changing events of `TaskForm.jsx`: the five field inputs, the
row editors, and the post-submit reset (`submitOk` is the `.then` branch that
clears the form, `submitErr` the `.catch` branch that sets the error). -/
inductive FormEvent where
  | fieldChange (field value : String)
  | rowChange (index : Nat) (key value : String)
  | addRow
  | removeRow (index : Nat)
  | submitOk
  | submitErr (msg : String)

/-- `TaskForm.jsx` state transition: each constructor mirrors the
corresponding handler (`handleFieldChange`, `handleRowChange`,
`handleAddRow`, `handleRemoveRow`, and the submission continuations).
`handleRemoveRow` keeps a single remaining row and otherwise drops the row
at `index` (`filter((_, rowIndex) => rowIndex !== index)`). -/
def stepForm (s : TaskFormState) : FormEvent → TaskFormState
  | FormEvent.fieldChange field value =>
    { s with values := setField s.values field value }
  | FormEvent.rowChange index key value =>
    { s with rows := s.rows.mapIdx (fun j r => if j = index then setRowKey r key value else r) }
  | FormEvent.addRow => { s with rows := s.rows ++ [⟨"", ""⟩] }
  | FormEvent.removeRow index =>
    { s with rows := if s.rows.length = 1 then s.rows else s.rows.eraseIdx index }
  | FormEvent.submitOk => initialTaskFormState
  | FormEvent.submitErr msg => { s with error := msg }

/-- The task-creation payload `handleSubmit` passes to `onSubmit`:
`{name, assigneeId, manday, budget, status, activities}`.  `manday` and
`budget` are carried as their raw input strings (the JavaScript `Number(...)`
float coercion is a display-boundary concern); `activities` holds the
numeric (monthId, activityId) pairs. -/
structure TaskPayload where
  name : String
  assigneeId : Option Nat
  manday : String
  budget : String
  status : String
  activities : List (Nat × Nat)
deriving DecidableEq, Repr

/-- JavaScript `Number(...)` on a decimal-digit select value (the month and
activity `<option>` values are decimal ids), as a digit fold. -/
def jsIdNumber (s : String) : Nat :=
  s.data.foldl (fun n c => n * 10 + (c.toNat - 48)) 0

/-- A row with both fields chosen (`row.monthId && row.activityId` — an empty
string is falsy). -/
def completeRow (r : ActivityRow) : Bool :=
  r.monthId != "" && r.activityId != ""

/-- Outcome of `handleSubmit`: either the error banner is set and `onSubmit`
is never invoked (`rejected`), or `onSubmit` is invoked with the payload
(`submitted`). -/
inductive SubmitResult where
  | rejected (msg : String)
  | submitted (payload : TaskPayload)
deriving DecidableEq, Repr

/-- `handleSubmit` of `TaskForm.jsx`: filter the rows to the complete
(month, activity) pairs; when none remain, set the error
"At least one month/activity pair is required." and return without calling
`onSubmit`; otherwise call `onSubmit` with the trimmed name, optional
assignee, raw manday/budget, status, and the numeric activity pairs. -/
def handleSubmit (s : TaskFormState) : SubmitResult :=
  let activitiesPayload :=
    (s.rows.filter completeRow).map
      (fun r => (jsIdNumber r.monthId, jsIdNumber r.activityId))
  if activitiesPayload.isEmpty then
    SubmitResult.rejected "At least one month/activity pair is required."
  else
    SubmitResult.submitted
      { name := s.values.name.trim
        assigneeId := if s.values.assigneeId != "" then
            some (jsIdNumber s.values.assigneeId) else none
        manday := s.values.manday
        budget := s.values.budget
        status := s.values.status
        activities := activitiesPayload }

theorem setField_status_of_ne (f : TaskFormValues) (field value : String)
    (h : field ≠ "status") : (setField f field value).status = f.status := by
  unfold setField
  repeat' split
  all_goals first
    | rfl
    | exact absurd (by assumption) h

/-- C9 (Task status domain invariant): the status domain offered by the form
is exactly the three values of `STATUS_OPTIONS` (the spec's `InProgress` is
spelled "In Progress" on the wire); the initial form status is in the
domain; every form event whose status payload comes from the status select
(whose options are exactly `STATUS_OPTIONS`) preserves membership; and a
submitted task-creation payload carries the form's status unchanged, hence
stays in the domain. -/
theorem task_status_domain (s : TaskFormState) (e : FormEvent)
    (hs : s.values.status ∈ STATUS_OPTIONS)
    (he : ∀ v, e = FormEvent.fieldChange "status" v → v ∈ STATUS_OPTIONS) :
    STATUS_OPTIONS = ["Planned", "In Progress", "Completed"] ∧
    initialTaskFormState.values.status ∈ STATUS_OPTIONS ∧
    (stepForm s e).values.status ∈ STATUS_OPTIONS ∧
    (∀ pl, handleSubmit s = SubmitResult.submitted pl →
      pl.status = s.values.status ∧ pl.status ∈ STATUS_OPTIONS) := by
  refine ⟨rfl, by decide, ?_, ?_⟩
  · cases e with
    | fieldChange field value =>
      by_cases hst : field = "status"
      · subst hst
        have hv := he value rfl
        show (setField s.values "status" value).status ∈ STATUS_OPTIONS
        unfold setField
        norm_num
        exact hv
      · show (setField s.values field value).status ∈ STATUS_OPTIONS
        rw [setField_status_of_ne s.values field value hst]
        exact hs
    | rowChange index key value => simpa using hs
    | addRow => simpa using hs
    | removeRow index => simpa using hs
    | submitOk =>
      show initialTaskFormState.values.status ∈ STATUS_OPTIONS
      decide
    | submitErr msg => simpa using hs
  · intro pl hpl
    unfold handleSubmit at hpl
    by_cases hemp : ((s.rows.filter completeRow).map
        (fun r => (jsIdNumber r.monthId, jsIdNumber r.activityId))).isEmpty
    · rw [if_pos hemp] at hpl
      exact absurd hpl (by simp)
    · rw [if_neg hemp] at hpl
      have := (SubmitResult.submitted.inj hpl).symm
      constructor
      · rw [this]
      · rw [this]
        exact hs

/-- Witness for C9: changing the status of the initial form state to
"Completed" through the select keeps it in the three-value domain, and the
submitted payload of a form with one complete row carries that status. -/
theorem task_status_domain_witness :
    (stepForm initialTaskFormState
      (FormEvent.fieldChange "status" "Completed")).values.status ∈ STATUS_OPTIONS ∧
    (∀ pl, handleSubmit initialTaskFormState = SubmitResult.submitted pl →
      pl.status = initialTaskFormState.values.status ∧ pl.status ∈ STATUS_OPTIONS) := by
  have h := task_status_domain initialTaskFormState
    (FormEvent.fieldChange "status" "Completed")
    (by decide)
    (by intro v hv
        have : v = "Completed" := by
          injection hv with h1 h2
          exact h2.symm
        rw [this]
        decide)
  exact ⟨h.2.2.1, h.2.2.2⟩

/-- C10 (Task-creation form gate): `handleSubmit` filters out every
incomplete (month, activity) row; it rejects with the error message exactly
when no complete pair remains (and then `onSubmit` is never invoked — no
payload exists); any submitted payload carries one activity pair per
complete row and hence is non-empty, so a task with zero month/activity
assignments cannot be created through this form. -/
theorem task_form_submit_gate (s : TaskFormState) :
    (s.rows.filter completeRow = [] ↔
      handleSubmit s =
        SubmitResult.rejected "At least one month/activity pair is required.") ∧
    (∀ pl, handleSubmit s = SubmitResult.submitted pl →
      pl.activities =
        (s.rows.filter completeRow).map
          (fun r => (jsIdNumber r.monthId, jsIdNumber r.activityId)) ∧
      pl.activities ≠ []) := by
  constructor
  · constructor
    · intro hemp
      unfold handleSubmit
      rw [hemp]
      rfl
    · intro hrej
      unfold handleSubmit at hrej
      by_cases hemp : ((s.rows.filter completeRow).map
          (fun r => (jsIdNumber r.monthId, jsIdNumber r.activityId))).isEmpty
      · exact List.map_eq_nil_iff.mp (List.isEmpty_iff.mp hemp)
      · rw [if_neg hemp] at hrej
        exact absurd hrej (by simp)
  · intro pl hpl
    unfold handleSubmit at hpl
    by_cases hemp : ((s.rows.filter completeRow).map
        (fun r => (jsIdNumber r.monthId, jsIdNumber r.activityId))).isEmpty
    · rw [if_pos hemp] at hpl
      exact absurd hpl (by simp)
    · rw [if_neg hemp] at hpl
      have hrec := (SubmitResult.submitted.inj hpl).symm
      constructor
      · rw [hrec]
      · rw [hrec]
        show ¬ _
        intro hnil
        rw [List.isEmpty_iff] at hemp
        exact hemp hnil

/-- Witness for C10: a form whose two rows are both incomplete (one missing
the activity, one missing the month) is rejected with the error message; a
form with one complete row submits a single-pair payload. -/
theorem task_form_submit_gate_witness :
    handleSubmit { values := initialFormValues
                   rows := [⟨"3", ""⟩, ⟨"", "2"⟩], error := "" } =
      SubmitResult.rejected "At least one month/activity pair is required." ∧
    (∀ pl, handleSubmit { values := initialFormValues
                          rows := [⟨"3", "2"⟩], error := "" } =
        SubmitResult.submitted pl →
      pl.activities = [(3, 2)] ∧ pl.activities ≠ []) := by
  constructor
  · exact (task_form_submit_gate
      { values := initialFormValues, rows := [⟨"3", ""⟩, ⟨"", "2"⟩], error := "" }).1.mp
      (by decide)
  · intro pl hpl
    have h := (task_form_submit_gate
      { values := initialFormValues, rows := [⟨"3", "2"⟩], error := "" }).2 pl hpl
    refine ⟨?_, h.2⟩
    rw [h.1]
    decide

end Creagy
